import Mathlib

/-!
Shallow embedding of `src/sourcecontrol.py` (class `DVC`), a minimal local
version-control engine over a content-addressed store.

Modelling conventions:
* Python dicts are insertion-ordered association lists `List (String × α)`
  with `dget?` (lookup), `dinsert` (`d[k] = v`: update in place or append),
  `dmem` (`k in d`), `dmodify` (in-place update of an existing value).
* `metadata.json` is the `Metadata` structure; every operation returns the
  value it would pass to `save_metadata`, so "no state change" is modelled
  as returning the input metadata unchanged.  A missing `staging` key is
  read back as `{}` everywhere (`metadata.get("staging", {})` /
  `metadata.pop("staging", {})`), so it is modelled as the empty map.
* `datetime.now().isoformat()` is impure; each operation takes the results
  of its `now()` calls as explicit string parameters, in call order
  (`DVC.commit` and `DVC.merge` each call `now()` twice: once for the
  commit id, once for the stored timestamp).
* `hashlib.sha1(...).hexdigest()` is modelled by an idealized
  collision-free digest `sha1`; every claim depends only on digest
  (in)equality, and the spec documents sha1 collisions as out of scope.
* `os.path.abspath` depends on the process working directory, so `add`
  takes the already-absolutized, normalized path as its input.
  `os.path.relpath` is embedded as `relpath`, following posixpath
  semantics on absolute normalized paths.
-/

/-- Lookup in an insertion-ordered dict: the first entry carrying the key
(a real Python dict has unique keys). -/
def dget? {α : Type} : List (String × α) → String → Option α
  | [], _ => none
  | (k, v) :: d, key => if k = key then some v else dget? d key

/-- Python `key in d`. -/
def dmem {α : Type} (d : List (String × α)) (key : String) : Bool :=
  d.any (fun p => p.1 = key)

/-- In-place update of every entry carrying `key` (Python
`d[key].append(...)`-style mutation of an existing binding; a missing key
would raise `KeyError`, theorems carry the key-present hypothesis). -/
def dmodify {α : Type} (d : List (String × α)) (key : String) (f : α → α) :
    List (String × α) :=
  d.map (fun p => if p.1 = key then (key, f p.2) else p)

/-- Python `d[key] = v`: overwrite in place when the key is present,
otherwise append a fresh binding at the end. -/
def dinsert {α : Type} (d : List (String × α)) (key : String) (v : α) :
    List (String × α) :=
  if dmem d key then dmodify d key (fun _ => v) else d ++ [(key, v)]

/-- Split a character list on the slash character. -/
def splitSlashAux : List Char → List Char → List (List Char)
  | [], acc => [acc.reverse]
  | c :: rest, acc =>
      if c = '/' then acc.reverse :: splitSlashAux rest []
      else splitSlashAux rest (c :: acc)

/-- The non-empty slash-separated components of a path (posixpath drops
empty components when computing relative paths). -/
def pathComponents (p : String) : List String :=
  ((splitSlashAux p.data []).filter (fun cs => cs ≠ [])).map String.mk

/-- Length of the longest common component sequence. -/
def commonLen : List String → List String → Nat
  | a :: as, b :: bs => if a = b then commonLen as bs + 1 else 0
  | _, _ => 0

/-- Join path components with slashes (posixpath `join`). -/
def joinSlash : List String → String
  | [] => ""
  | [x] => x
  | x :: rest => x ++ "/" ++ joinSlash rest

/-- `os.path.relpath p start` for absolute normalized inputs: drop the
common component run, then climb with `..` for each remaining component of
`start`. -/
def relpath (start p : String) : String :=
  let sl := pathComponents start
  let pl := pathComponents p
  let i := commonLen sl pl
  let rel := List.replicate (sl.length - i) ".." ++ pl.drop i
  if rel = [] then "." else joinSlash rel

/-- Python `s.startswith pre`. -/
def startswith (s pre : String) : Bool := pre.data.isPrefixOf s.data

/-- Spec-side predicate, written from the spec's words for comparison with
the code's check: the absolute normalized path `p` resolves inside the
repository root `root`, i.e. it is the root itself or lies strictly below
it (the root followed by a path separator). -/
def insideRoot (root p : String) : Bool :=
  p == root || (root ++ "/").data.isPrefixOf p.data

/-- Idealized collision-free model of
`hashlib.sha1(s.encode()).hexdigest()`. -/
def sha1 (s : String) : String := "sha1:" ++ s

/-- The single-quote character interpolated by the f-strings building
commit messages. -/
def squo : String := String.singleton (Char.ofNat 39)

/-- A commit record as built by `DVC.commit` / `DVC.merge`. -/
structure Commit where
  id : String
  message : String
  timestamp : String
  files : List (String × String)
  parent : Option String
deriving DecidableEq

/-- The persisted `metadata.json` document. -/
structure Metadata where
  branches : List (String × List Commit)
  current_branch : String
  head : Option String
  staging : List (String × String)
deriving DecidableEq

/-- `metadata["branches"].get(b, [])`. -/
def branchCommits (m : Metadata) (b : String) : List Commit :=
  (dget? m.branches b).getD []

/-- Outcome reported by `DVC.add`. -/
inductive AddResult
  | outOfScope
  | ignoredSkip
  | staged (rel digest : String)
deriving DecidableEq

/-- `DVC.add`: `root` is `self.repo_path`, `ignored` the `.dvcignore`
lines, `absPath` the absolutized input path, `content` the file's bytes.
The out-of-scope check is the literal `abs_path.startswith(repo_path)` of
the source. -/
def add (root : String) (ignored : List String) (m : Metadata)
    (absPath content : String) : AddResult × Metadata :=
  if startswith absPath root = false then (.outOfScope, m)
  else
    let rel := relpath root absPath
    if ignored.contains rel then (.ignoredSkip, m)
    else
      let h := sha1 content
      (.staged rel h, { m with staging := dinsert m.staging rel h })

/-- Outcome reported by `DVC.commit`. -/
inductive CommitResult
  | noChanges
  | committed (id : String)
deriving DecidableEq

/-- `DVC.commit`: `tId` and `tStamp` are the two
`datetime.now().isoformat()` results, in call order (the id hash and the
stored timestamp come from separate calls).  With empty staging nothing is
saved, and popping the already-absent key leaves the state unchanged. -/
def commit (m : Metadata) (message tId tStamp : String) :
    CommitResult × Metadata :=
  if m.staging = [] then (.noChanges, m)
  else
    let cid := sha1 (message ++ tId)
    let c : Commit :=
      { id := cid, message := message, timestamp := tStamp,
        files := m.staging, parent := m.head }
    (.committed cid,
     { m with
        branches := dmodify m.branches m.current_branch (fun cs => cs ++ [c]),
        head := some cid,
        staging := [] })

/-- Outcome reported by `DVC.branch`. -/
inductive BranchResult
  | alreadyExists
  | created
deriving DecidableEq

/-- `DVC.branch`: `list(...)` takes a value copy of the current branch's
commit sequence; Lean lists are values. -/
def branch (m : Metadata) (name : String) : BranchResult × Metadata :=
  if dmem m.branches name then (.alreadyExists, m)
  else
    (.created,
     { m with
        branches := dinsert m.branches name (branchCommits m m.current_branch) })

/-- Outcome reported by `DVC.checkout`. -/
inductive CheckoutResult
  | notFound
  | switched
deriving DecidableEq

/-- `DVC.checkout`: on success the head becomes the id of the last commit
of the target branch (`[-1]["id"]`), or `None` for an empty sequence. -/
def checkout (m : Metadata) (name : String) : CheckoutResult × Metadata :=
  match dget? m.branches name with
  | none => (.notFound, m)
  | some cs =>
      (.switched,
       { m with current_branch := name, head := cs.getLast?.map Commit.id })

/-- `{c["id"]: c for c in commits}[i]`: the dict comprehension keeps the
last commit carrying a given id, so lookup is last-match. -/
def lastById (cs : List Commit) (i : String) : Option Commit :=
  cs.foldl (fun acc c => if c.id = i then some c else acc) none

/-- The key set of a file map (Python `set(files)`). -/
def keyset (d : List (String × String)) : Finset String :=
  (d.map Prod.fst).toFinset

/-- The three path sets reported by `DVC.diff`. -/
structure DiffReport where
  added : Finset String
  removed : Finset String
  modified : Finset String
deriving DecidableEq

/-- The sets `DVC.diff` computes from two commits' file maps. -/
def diffSets (f1 f2 : List (String × String)) : DiffReport :=
  { added := keyset f2 \ keyset f1
    removed := keyset f1 \ keyset f2
    modified :=
      (keyset f1 ∩ keyset f2).filter (fun f => dget? f1 f ≠ dget? f2 f) }

/-- `DVC.diff`: both ids are looked up within the current branch only;
`none` models the reported "Commit(s) not found" outcome. -/
def diff (m : Metadata) (id1 id2 : String) : Option DiffReport :=
  let cs := branchCommits m m.current_branch
  match lastById cs id1, lastById cs id2 with
  | some c1, some c2 => some (diffSets c1.files c2.files)
  | _, _ => none

/-- `{k: v for commit in cs for k, v in commit["files"].items()}`: fold
every commit's entries into one dict, in sequence order. -/
def flatten (cs : List Commit) : List (String × String) :=
  cs.foldl (fun acc c => c.files.foldl (fun a kv => dinsert a kv.1 kv.2) acc) []

/-- The merge conflict comprehension: paths of the current flattened map
that the target flattened map also carries with a different digest. -/
def conflicts (cur tgt : List (String × String)) : List String :=
  (cur.map Prod.fst).filter (fun f => dmem tgt f && (dget? cur f != dget? tgt f))

/-- Python `{**a, **b}`. -/
def dunion (a b : List (String × String)) : List (String × String) :=
  b.foldl (fun acc kv => dinsert acc kv.1 kv.2) a

/-- `DVC.merge`: the Python return value is `[]` for an unknown target
branch, the non-empty conflict list when conflicts exist, and `None` on
success — modelled as `some []`, `some conflicts` and `none`.  `tId` and
`tStamp` are the two `now()` calls in order. -/
def merge (m : Metadata) (target tId tStamp : String) :
    Option (List String) × Metadata :=
  if dmem m.branches target = false then (some [], m)
  else
    let curF := flatten (branchCommits m m.current_branch)
    let tgtF := flatten (branchCommits m target)
    let confl := conflicts curF tgtF
    if confl = [] then
      let mc : Commit :=
        { id := "merge-" ++ tId
          message := "Merge branch " ++ squo ++ target ++ squo ++ " into " ++
            squo ++ m.current_branch ++ squo
          timestamp := tStamp
          files := dunion curF tgtF
          parent := m.head }
      (none,
       { m with
          branches := dmodify m.branches m.current_branch (fun cs => cs ++ [mc]),
          head := some mc.id })
    else (some confl, m)

/-- Spec-side reading of the flattened file map: fold the branch's commits
in order, a later commit's entry for `p` overriding an earlier one. -/
def lastWrite (cs : List Commit) (p : String) : Option String :=
  cs.foldl
    (fun r c => c.files.foldl (fun r2 kv => if kv.1 = p then some kv.2 else r2) r)
    none

/-- Example commit: first commit of the `main` example branch. -/
def cA : Commit :=
  { id := "c1", message := "one", timestamp := "t1",
    files := [("a.txt", "h1"), ("b.txt", "h2")], parent := none }

/-- Example commit: second commit of the `main` example branch. -/
def cB : Commit :=
  { id := "c2", message := "two", timestamp := "t2",
    files := [("a.txt", "h3")], parent := some "c1" }

/-- Example commit: the only commit of the `dev` example branch. -/
def cC : Commit :=
  { id := "c3", message := "three", timestamp := "t3",
    files := [("a.txt", "h9"), ("c.txt", "h2")], parent := none }

/-- Example repository: `main` and `dev` diverge on `a.txt`. -/
def mW : Metadata :=
  { branches := [("main", [cA, cB]), ("dev", [cC])],
    current_branch := "main", head := some "c2",
    staging := [("s.txt", "hs")] }

/-- Example repository with two empty branches `main` and `a`. -/
def mM1 : Metadata :=
  { branches := [("main", []), ("a", [])],
    current_branch := "main", head := none, staging := [] }

/-- Example repository with two empty branches `main` and `b`. -/
def mM2 : Metadata :=
  { branches := [("main", []), ("b", [])],
    current_branch := "main", head := none, staging := [] }

/-- Example repository whose staging map already holds the path `f`. -/
def mStaged : Metadata :=
  { branches := [("main", [])],
    current_branch := "main", head := none, staging := [("f", "h0")] }

theorem dget?_cons {α : Type} (ka : String) (va : α) (d : List (String × α))
    (k : String) :
    dget? ((ka, va) :: d) k = if ka = k then some va else dget? d k := rfl

theorem dmodify_cons {α : Type} (ka : String) (va : α) (d : List (String × α))
    (key : String) (f : α → α) :
    dmodify ((ka, va) :: d) key f =
      (if ka = key then (key, f va) else (ka, va)) :: dmodify d key f := rfl

theorem dget?_dmodify {α : Type} (d : List (String × α)) (key : String)
    (f : α → α) (k : String) :
    dget? (dmodify d key f) k =
      if k = key then (dget? d key).map f else dget? d k := by
  induction d with
  | nil => simp [dmodify, dget?]
  | cons a d ih =>
      obtain ⟨ka, va⟩ := a
      rw [dmodify_cons]
      by_cases h1 : ka = key
      · subst h1
        by_cases h2 : k = ka
        · subst h2
          simp [dget?_cons, ih]
        · have h2' : ¬ ka = k := fun h => h2 h.symm
          simp [dget?_cons, h2, h2', ih]
      · by_cases h2 : k = key
        · subst h2
          simp [dget?_cons, h1, ih]
        · by_cases h3 : ka = k
          · subst h3
            simp [dget?_cons, h1, h2]
          · simp [dget?_cons, h1, h2, h3, ih]

theorem dmem_eq_isSome {α : Type} (d : List (String × α)) (k : String) :
    dmem d k = (dget? d k).isSome := by
  induction d with
  | nil => rfl
  | cons a d ih =>
      obtain ⟨ka, va⟩ := a
      by_cases h : ka = k
      · simp [dmem, dget?_cons, h]
      · simp [dmem, dget?_cons, h, ← ih, List.any]

theorem dget?_append {α : Type} (d e : List (String × α)) (k : String) :
    dget? (d ++ e) k = ((dget? d k).or (dget? e k)) := by
  induction d with
  | nil => simp [dget?]
  | cons a d ih =>
      obtain ⟨ka, va⟩ := a
      by_cases h : ka = k <;> simp [dget?_cons, h, ih]

theorem dget?_dinsert {α : Type} (d : List (String × α)) (key : String)
    (v : α) (k : String) :
    dget? (dinsert d key v) k = if k = key then some v else dget? d k := by
  unfold dinsert
  by_cases hm : dmem d key
  · rw [if_pos hm, dget?_dmodify]
    rw [dmem_eq_isSome] at hm
    obtain ⟨w, hw⟩ := Option.isSome_iff_exists.mp hm
    rw [hw]
    rfl
  · rw [if_neg hm, dget?_append]
    rw [dmem_eq_isSome] at hm
    have hnone : dget? d key = none := by
      cases h : dget? d key with
      | none => rfl
      | some w => rw [h] at hm; simp at hm
    by_cases h2 : k = key
    · subst h2; simp [hnone, dget?_cons]
    · have h2' : ¬ key = k := fun h => h2 h.symm
      rw [if_neg h2, dget?_cons, if_neg h2']
      show (dget? d k).or (dget? [] k) = dget? d k
      cases dget? d k <;> rfl

theorem mem_keys_iff {α : Type} (d : List (String × α)) (k : String) :
    k ∈ d.map Prod.fst ↔ (dget? d k).isSome = true := by
  induction d with
  | nil => simp [dget?]
  | cons a d ih =>
      obtain ⟨ka, va⟩ := a
      by_cases h : ka = k
      · subst h; simp [dget?_cons]
      · have h' : ¬ k = ka := fun hh => h hh.symm
        simp [dget?_cons, h, h', ih]

theorem dget?_foldl_dinsert (items : List (String × String))
    (acc : List (String × String)) (p : String) :
    dget? (items.foldl (fun a kv => dinsert a kv.1 kv.2) acc) p =
      items.foldl (fun r kv => if kv.1 = p then some kv.2 else r) (dget? acc p) := by
  induction items generalizing acc with
  | nil => rfl
  | cons kv items ih =>
      simp only [List.foldl_cons]
      rw [ih, dget?_dinsert]
      by_cases h : kv.1 = p
      · rw [if_pos h, if_pos h.symm]
      · rw [if_neg h, if_neg (fun hh => h hh.symm)]

theorem dget?_flatten_aux (cs : List Commit) (acc : List (String × String))
    (p : String) :
    dget? (cs.foldl (fun a c => c.files.foldl (fun a2 kv => dinsert a2 kv.1 kv.2) a) acc) p =
      cs.foldl
        (fun r c => c.files.foldl (fun r2 kv => if kv.1 = p then some kv.2 else r2) r)
        (dget? acc p) := by
  induction cs generalizing acc with
  | nil => rfl
  | cons c cs ih =>
      simp only [List.foldl_cons]
      rw [ih, dget?_foldl_dinsert]

theorem dget?_flatten (cs : List Commit) (p : String) :
    dget? (flatten cs) p = lastWrite cs p := by
  unfold flatten lastWrite
  rw [dget?_flatten_aux]
  rfl

theorem mem_conflicts_iff (cur tgt : List (String × String)) (p : String) :
    p ∈ conflicts cur tgt ↔
      ((dget? cur p).isSome = true ∧ (dget? tgt p).isSome = true ∧
        dget? cur p ≠ dget? tgt p) := by
  unfold conflicts
  rw [List.mem_filter]
  rw [mem_keys_iff]
  constructor
  · rintro ⟨h1, h2⟩
    rw [Bool.and_eq_true] at h2
    obtain ⟨hm, hne⟩ := h2
    rw [dmem_eq_isSome] at hm
    exact ⟨h1, hm, by simpa using hne⟩
  · rintro ⟨h1, h2, h3⟩
    refine ⟨h1, ?_⟩
    rw [Bool.and_eq_true, dmem_eq_isSome]
    exact ⟨h2, by simpa using h3⟩

theorem isPrefixOf_self (l : List Char) : l.isPrefixOf l = true := by
  induction l with
  | nil => rfl
  | cons a l ih => simp [List.isPrefixOf, ih]

theorem isPrefixOf_append (a b : List Char) : a.isPrefixOf (a ++ b) = true := by
  induction a with
  | nil => simp [List.isPrefixOf]
  | cons x a ih => simp [List.isPrefixOf, ih]

theorem isPrefixOf_of_append (a b c : List Char)
    (h : (a ++ b).isPrefixOf c = true) : a.isPrefixOf c = true := by
  induction a generalizing c with
  | nil => simp [List.isPrefixOf]
  | cons x a ih =>
      cases c with
      | nil => simp [List.isPrefixOf] at h
      | cons y c =>
          simp only [List.cons_append, List.isPrefixOf, Bool.and_eq_true] at h ⊢
          exact ⟨h.1, ih c h.2⟩

theorem string_append_cancel (pre t u : String)
    (h : pre ++ t = pre ++ u) : t = u := by
  have hd : (pre ++ t).data = (pre ++ u).data := by rw [h]
  rw [String.data_append, String.data_append] at hd
  exact String.ext (List.append_cancel_left hd)

/-- Claim C1: with an existing target branch, `merge` computes each branch's
flattened file map by folding the branch's entire commit sequence in order
with later commits' entries overriding earlier ones (`lastWrite`), and the
conflicts it reports are exactly the paths present in both flattened maps
whose digests differ. -/
theorem merge_flatten_conflicts (m : Metadata) (target tId tStamp : String)
    (hex : dmem m.branches target = true) :
    (∀ p, dget? (flatten (branchCommits m m.current_branch)) p =
        lastWrite (branchCommits m m.current_branch) p) ∧
    (∀ p, dget? (flatten (branchCommits m target)) p =
        lastWrite (branchCommits m target) p) ∧
    (∀ p, p ∈ conflicts (flatten (branchCommits m m.current_branch))
            (flatten (branchCommits m target)) ↔
        ((dget? (flatten (branchCommits m m.current_branch)) p).isSome = true ∧
         (dget? (flatten (branchCommits m target)) p).isSome = true ∧
         dget? (flatten (branchCommits m m.current_branch)) p ≠
           dget? (flatten (branchCommits m target)) p)) ∧
    (conflicts (flatten (branchCommits m m.current_branch))
        (flatten (branchCommits m target)) ≠ [] →
      (merge m target tId tStamp).1 =
        some (conflicts (flatten (branchCommits m m.current_branch))
          (flatten (branchCommits m target)))) ∧
    (conflicts (flatten (branchCommits m m.current_branch))
        (flatten (branchCommits m target)) = [] →
      (merge m target tId tStamp).1 = none) := by
  refine ⟨fun p => dget?_flatten _ p, fun p => dget?_flatten _ p,
    fun p => mem_conflicts_iff _ _ p, ?_, ?_⟩
  · intro h
    simp [merge, hex, h]
  · intro h
    simp [merge, hex, h]

/-- Witness for C1: the example repository `mW` instantiates every
hypothesis; `a.txt` is the conflicting path. -/
theorem merge_flatten_conflicts_witness :
    dget? (flatten (branchCommits mW mW.current_branch)) "a.txt" =
      lastWrite (branchCommits mW mW.current_branch) "a.txt" ∧
    dget? (flatten (branchCommits mW "dev")) "a.txt" =
      lastWrite (branchCommits mW "dev") "a.txt" ∧
    ("a.txt" ∈ conflicts (flatten (branchCommits mW mW.current_branch))
        (flatten (branchCommits mW "dev")) ↔
      ((dget? (flatten (branchCommits mW mW.current_branch)) "a.txt").isSome = true ∧
       (dget? (flatten (branchCommits mW "dev")) "a.txt").isSome = true ∧
       dget? (flatten (branchCommits mW mW.current_branch)) "a.txt" ≠
         dget? (flatten (branchCommits mW "dev")) "a.txt")) ∧
    (merge mW "dev" "T" "S").1 =
      some (conflicts (flatten (branchCommits mW mW.current_branch))
        (flatten (branchCommits mW "dev"))) := by
  have h := merge_flatten_conflicts mW "dev" "T" "S" (by decide)
  exact ⟨h.1 "a.txt", h.2.1 "a.txt", h.2.2.1 "a.txt", h.2.2.2.1 (by decide)⟩

/-- Claim C2: when `merge` detects at least one conflict it returns the
full list of conflicting paths and leaves the persisted repository state
(branches, current branch, head, staging) completely unchanged. -/
theorem merge_conflict_aborts (m : Metadata) (target tId tStamp : String)
    (hex : dmem m.branches target = true)
    (hc : conflicts (flatten (branchCommits m m.current_branch))
        (flatten (branchCommits m target)) ≠ []) :
    merge m target tId tStamp =
      (some (conflicts (flatten (branchCommits m m.current_branch))
        (flatten (branchCommits m target))), m) := by
  simp [merge, hex, hc]

/-- Witness for C2: merging `dev` into `main` in `mW` reports the conflict
list `["a.txt"]` and returns the repository unchanged. -/
theorem merge_conflict_aborts_witness :
    merge mW "dev" "T" "S" = (some ["a.txt"], mW) := by
  have h := merge_conflict_aborts mW "dev" "T" "S" (by decide) (by decide)
  rw [h]
  decide

/-- Claim C10: merging a target branch that does not exist returns the
empty list and changes no state; the empty-list return value is exactly
the unknown-branch signal at the public interface, since the conflict
outcome returns a non-empty path list and success returns `None`. -/
theorem merge_unknown_empty (m : Metadata) (target tId tStamp : String) :
    ((merge m target tId tStamp).1 = some [] ↔ dmem m.branches target = false) ∧
    (dmem m.branches target = false → merge m target tId tStamp = (some [], m)) := by
  constructor
  · constructor
    · intro h
      by_contra hb
      have hb' : dmem m.branches target = true := by
        cases hbool : dmem m.branches target
        · exact absurd hbool hb
        · rfl
      by_cases hc : conflicts (flatten (branchCommits m m.current_branch))
          (flatten (branchCommits m target)) = []
      · simp [merge, hb', hc] at h
      · simp [merge, hb', hc] at h
    · intro h
      simp [merge, h]
  · intro h
    simp [merge, h]

/-- Witness for C10: `mW` has no branch `nope`; merging it returns the
empty list with the state unchanged. -/
theorem merge_unknown_empty_witness :
    dmem mW.branches "nope" = false ∧ merge mW "nope" "T" "S" = (some [], mW) :=
  ⟨by decide, (merge_unknown_empty mW "nope" "T" "S").2 (by decide)⟩

/-- Claim C4: with a non-empty staging map, `commit` creates a new commit
whose files map equals the staging map and whose parent equals the
pre-commit head, appends it to the current branch's sequence, sets head to
the new commit's id, clears the staging map, and the returned (persisted)
state reflects exactly those changes. -/
theorem commit_spec (m : Metadata) (message tId tStamp : String)
    (hst : m.staging ≠ [])
    (hbr : dmem m.branches m.current_branch = true) :
    (commit m message tId tStamp).1 = .committed (sha1 (message ++ tId)) ∧
    branchCommits (commit m message tId tStamp).2 m.current_branch =
      branchCommits m m.current_branch ++
        [{ id := sha1 (message ++ tId), message := message, timestamp := tStamp,
           files := m.staging, parent := m.head }] ∧
    (commit m message tId tStamp).2.head = some (sha1 (message ++ tId)) ∧
    (commit m message tId tStamp).2.staging = [] ∧
    (commit m message tId tStamp).2.current_branch = m.current_branch ∧
    (∀ b, b ≠ m.current_branch →
      branchCommits (commit m message tId tStamp).2 b = branchCommits m b) := by
  obtain ⟨cs, hcs⟩ : ∃ cs, dget? m.branches m.current_branch = some cs := by
    rw [dmem_eq_isSome] at hbr
    exact Option.isSome_iff_exists.mp hbr
  refine ⟨by simp [commit, hst], ?_, by simp [commit, hst], by simp [commit, hst],
    by simp [commit, hst], ?_⟩
  · simp [commit, hst, branchCommits, dget?_dmodify, hcs]
  · intro b hb
    simp [commit, hst, branchCommits, dget?_dmodify, hb]

/-- Witness for C4 at the example repository `mW`, whose staging map is
non-empty and whose current branch exists. -/
theorem commit_spec_witness :
    (commit mW "msg" "T" "S").1 = .committed (sha1 ("msg" ++ "T")) ∧
    branchCommits (commit mW "msg" "T" "S").2 mW.current_branch =
      branchCommits mW mW.current_branch ++
        [{ id := sha1 ("msg" ++ "T"), message := "msg", timestamp := "S",
           files := mW.staging, parent := mW.head }] ∧
    (commit mW "msg" "T" "S").2.staging = [] := by
  have h := commit_spec mW "msg" "T" "S" (by decide) (by decide)
  exact ⟨h.1, h.2.1, h.2.2.2.1⟩

/-- Claim C7: for two commits found on the current branch, `diff` in the
two argument orders reports swapped added/removed sets and identical
modified sets, where added are the paths of the second commit's files not
in the first, removed the converse, and modified the shared paths with
differing digests. -/
theorem diff_antisymmetry (m : Metadata) (id1 id2 : String) (c1 c2 : Commit)
    (h1 : lastById (branchCommits m m.current_branch) id1 = some c1)
    (h2 : lastById (branchCommits m m.current_branch) id2 = some c2) :
    diff m id1 id2 = some (diffSets c1.files c2.files) ∧
    diff m id2 id1 = some (diffSets c2.files c1.files) ∧
    (diffSets c1.files c2.files).added = keyset c2.files \ keyset c1.files ∧
    (diffSets c1.files c2.files).removed = keyset c1.files \ keyset c2.files ∧
    (diffSets c1.files c2.files).modified =
      (keyset c1.files ∩ keyset c2.files).filter
        (fun f => dget? c1.files f ≠ dget? c2.files f) ∧
    (diffSets c2.files c1.files).added = (diffSets c1.files c2.files).removed ∧
    (diffSets c2.files c1.files).removed = (diffSets c1.files c2.files).added ∧
    (diffSets c2.files c1.files).modified = (diffSets c1.files c2.files).modified := by
  refine ⟨by simp [diff, h1, h2], by simp [diff, h1, h2], rfl, rfl, rfl, rfl, rfl, ?_⟩
  unfold diffSets
  ext f
  simp only [Finset.mem_filter, Finset.mem_inter]
  constructor
  · rintro ⟨⟨ha, hb⟩, hne⟩
    exact ⟨⟨hb, ha⟩, fun hh => hne hh.symm⟩
  · rintro ⟨⟨ha, hb⟩, hne⟩
    exact ⟨⟨hb, ha⟩, fun hh => hne hh.symm⟩

/-- Witness for C7: the two commits `c1` and `c2` of `mW`'s current branch. -/
theorem diff_antisymmetry_witness :
    diff mW "c1" "c2" = some (diffSets cA.files cB.files) ∧
    diff mW "c2" "c1" = some (diffSets cB.files cA.files) := by
  have h := diff_antisymmetry mW "c1" "c2" cA cB (by decide) (by decide)
  exact ⟨h.1, h.2.1⟩

/-- Claim C8: `checkout` of a missing branch is a reported no-op leaving
the state unchanged; otherwise it sets the current branch to the target
and the head to the id of the last commit of the target's sequence, or to
`None` when that sequence is empty, and the returned state is persisted. -/
theorem checkout_spec (m : Metadata) (name : String) :
    (dget? m.branches name = none → checkout m name = (.notFound, m)) ∧
    (∀ cs, dget? m.branches name = some cs →
      checkout m name =
        (.switched,
         { m with current_branch := name, head := cs.getLast?.map Commit.id }) ∧
      (cs = [] → (checkout m name).2.head = none) ∧
      (∀ c cs0, cs = cs0 ++ [c] → (checkout m name).2.head = some c.id)) := by
  constructor
  · intro h
    simp [checkout, h]
  · intro cs h
    refine ⟨by simp [checkout, h], ?_, ?_⟩
    · rintro rfl
      simp [checkout, h]
    · rintro c cs0 rfl
      simp [checkout, h, List.getLast?_concat]

/-- Witness for C8: checking out the existing branch `dev` of `mW` moves
head to its last commit's id; checking out a missing branch is a no-op. -/
theorem checkout_spec_witness :
    checkout mW "dev" =
      (.switched, { mW with current_branch := "dev", head := some "c3" }) ∧
    checkout mW "nope" = (.notFound, mW) := by
  constructor
  · have h := ((checkout_spec mW "dev").2 [cC] (by decide)).1
    rw [h]
    decide
  · exact (checkout_spec mW "nope").1 (by decide)

/-- Claim C9: `branch` with a fresh name binds it to a value copy of the
current branch's commit sequence and touches nothing else; any commit
subsequently appended by `commit` or `merge` lands only on the then-current
branch, every other branch's sequence staying unchanged, so it never
appears in the other branch of the pair; with an existing name the
operation is a reported no-op with no state change. -/
theorem branch_copy_isolated (m : Metadata) (name : String)
    (hnew : dmem m.branches name = false)
    (hcur : dmem m.branches m.current_branch = true) :
    (branch m name).1 = .created ∧
    branchCommits (branch m name).2 name = branchCommits m m.current_branch ∧
    (branch m name).2.current_branch = m.current_branch ∧
    (∀ b, b ≠ name → dget? (branch m name).2.branches b = dget? m.branches b) ∧
    (∀ m2 msg t1 t2 b, b ≠ m2.current_branch →
      branchCommits (commit m2 msg t1 t2).2 b = branchCommits m2 b) ∧
    (∀ m2 tgt t1 t2 b, b ≠ m2.current_branch →
      branchCommits (merge m2 tgt t1 t2).2 b = branchCommits m2 b) ∧
    (∀ m2 name2, dmem m2.branches name2 = true →
      branch m2 name2 = (.alreadyExists, m2)) := by
  refine ⟨by simp [branch, hnew], ?_, by simp [branch, hnew], ?_, ?_, ?_, ?_⟩
  · simp [branch, hnew, branchCommits, dget?_dinsert]
  · intro b hb
    simp [branch, hnew, dget?_dinsert, hb]
  · intro m2 msg t1 t2 b hb
    by_cases hst : m2.staging = []
    · simp [commit, hst]
    · simp [commit, hst, branchCommits, dget?_dmodify, hb]
  · intro m2 tgt t1 t2 b hb
    by_cases hex : dmem m2.branches tgt = false
    · simp [merge, hex]
    · by_cases hc : conflicts (flatten (branchCommits m2 m2.current_branch))
          (flatten (branchCommits m2 tgt)) = []
      · simp only [merge]
        rw [if_neg hex, if_pos hc]
        simp [branchCommits, dget?_dmodify, hb]
      · simp only [merge]
        rw [if_neg hex, if_neg hc]
  · intro m2 name2 h
    simp [branch, h]

/-- Witness for C9: creating `feature` in `mW` copies `main`'s sequence. -/
theorem branch_copy_isolated_witness :
    (branch mW "feature").1 = .created ∧
    branchCommits (branch mW "feature").2 "feature" =
      branchCommits mW mW.current_branch := by
  have h := branch_copy_isolated mW "feature" (by decide) (by decide)
  exact ⟨h.1, h.2.1⟩

/-- Claim C3 (amended): `add` raises the out-of-scope error exactly when
the absolutized input path does not have the repository root as a string
prefix (the code's `startswith` test); every path that resolves inside the
root passes the check, but the test is weaker than the claim states: a
path outside the root whose absolute form merely extends the root string
(a sibling such as `/rb` under root `/r`) also passes. -/
theorem add_scope_check (root : String) (ignored : List String) (m : Metadata)
    (absPath content : String) :
    ((add root ignored m absPath content).1 = .outOfScope ↔
      startswith absPath root = false) ∧
    (insideRoot root absPath = true →
      (add root ignored m absPath content).1 ≠ .outOfScope) := by
  have main : startswith absPath root = true →
      (add root ignored m absPath content).1 ≠ .outOfScope := by
    intro hb'
    by_cases hig : relpath root absPath ∈ ignored
    · simp [add, hb', hig]
    · simp [add, hb', hig]
  refine ⟨⟨?_, ?_⟩, ?_⟩
  · intro h
    cases hx : startswith absPath root
    · rfl
    · exact absurd h (main hx)
  · intro h
    simp [add, h]
  · intro h
    apply main
    unfold insideRoot at h
    rw [Bool.or_eq_true] at h
    rcases h with h1 | h2
    · have he : absPath = root := by simpa using h1
      unfold startswith
      rw [he]
      exact isPrefixOf_self _
    · unfold startswith
      rw [String.data_append] at h2
      exact isPrefixOf_of_append _ _ _ h2

/-- Witness for C3 (amended): `/r/a.txt` resolves inside the root `/r` and
is not rejected. -/
theorem add_scope_check_witness :
    (add "/r" [] mW "/r/a.txt" "v").1 ≠ AddResult.outOfScope :=
  (add_scope_check "/r" [] mW "/r/a.txt" "v").2 (by decide)

/-- Counterexample for C3 as stated: with root `/r`, the path `/rb/x` does
not resolve inside the repository root, yet `add` raises no out-of-scope
error, because the code's check is a plain string-prefix test. -/
theorem add_scope_cex :
    insideRoot "/r" "/rb/x" = false ∧
    (add "/r" [] mW "/rb/x" "v").1 ≠ AddResult.outOfScope := by
  constructor
  · decide
  · decide

/-- Claim C6 (amended): when the path's repository-relative form is listed
verbatim in `.dvcignore`, `add` is a no-op that leaves the whole state —
in particular the staging map — unchanged; consequently the path is absent
from staging after the call whenever it was absent before the call, but a
previously staged entry for it is not removed. -/
theorem add_ignored_noop (root : String) (ignored : List String) (m : Metadata)
    (absPath content : String)
    (hin : startswith absPath root = true)
    (hig : ignored.contains (relpath root absPath) = true) :
    add root ignored m absPath content = (.ignoredSkip, m) ∧
    (dmem m.staging (relpath root absPath) = false →
      dmem (add root ignored m absPath content).2.staging
        (relpath root absPath) = false) := by
  have h : add root ignored m absPath content = (.ignoredSkip, m) := by
    have hig2 : relpath root absPath ∈ ignored := by simpa using hig
    simp [add, hin, hig2]
  refine ⟨h, ?_⟩
  rw [h]
  exact fun hh => hh

/-- Witness for C6 (amended): `f` is ignored in the example, and `add` on
it is a pure no-op. -/
theorem add_ignored_noop_witness :
    add "/r" ["f"] mStaged "/r/f" "v" = (AddResult.ignoredSkip, mStaged) :=
  (add_ignored_noop "/r" ["f"] mStaged "/r/f" "v" (by decide) (by decide)).1

/-- Counterexample for C6 as stated: `f` is listed verbatim in the ignore
list and is already staged in `mStaged`; after `add` is called on it the
staging map still contains `f`. -/
theorem add_ignored_cex :
    ["f"].contains (relpath "/r" "/r/f") = true ∧
    dmem (add "/r" ["f"] mStaged "/r/f" "v").2.staging "f" = true := by
  constructor
  · decide
  · decide

/-- Claim C5 (amended): a commit created by `commit` has id
`sha1 (message ++ t)` where `t` is the first `now()` result (a call
distinct from the one stored in the `timestamp` field), colliding under
the idealized digest exactly when `message ++ t` coincide; a commit
created by a successful `merge` has id `"merge-" ++ t` derived from the
timestamp alone, so two merge commits collide exactly when their
id-timestamps coincide, regardless of their messages. -/
theorem commit_merge_id_shapes (m : Metadata) (message tId tStamp target : String) :
    (m.staging ≠ [] →
      (commit m message tId tStamp).1 = .committed (sha1 (message ++ tId))) ∧
    (dmem m.branches target = true →
      conflicts (flatten (branchCommits m m.current_branch))
        (flatten (branchCommits m target)) = [] →
      (merge m target tId tStamp).2.head = some ("merge-" ++ tId)) ∧
    (∀ s t : String, sha1 s = sha1 t ↔ s = t) ∧
    (∀ s t : String, ("merge-" ++ s : String) = "merge-" ++ t ↔ s = t) := by
  refine ⟨?_, ?_, ?_, ?_⟩
  · intro h
    simp [commit, h]
  · intro hex hc
    simp [merge, hex, hc]
  · intro s t
    constructor
    · intro h
      simp only [sha1] at h
      exact string_append_cancel _ s t h
    · intro h
      rw [h]
  · intro s t
    constructor
    · intro h
      exact string_append_cancel _ s t h
    · intro h
      rw [h]

/-- Witness for C5 (amended): a concrete commit id and merge id of the
stated shapes. -/
theorem commit_merge_id_shapes_witness :
    (commit mW "msg" "T" "S").1 = CommitResult.committed (sha1 ("msg" ++ "T")) ∧
    (merge mM1 "a" "T" "S").2.head = some ("merge-" ++ "T") :=
  ⟨(commit_merge_id_shapes mW "msg" "T" "S" "a").1 (by decide),
   (commit_merge_id_shapes mM1 "msg" "T" "S" "a").2.1 (by decide) (by decide)⟩

/-- Counterexample for C5 as stated: two merge commits created at the same
id-timestamp `T` with different messages (merging branch `a` vs branch
`b`) receive the same id, so a collision occurs although the two commits
do not share an identical message — and the merge id is not derived from
the message at all. -/
theorem commit_merge_id_cex :
    (branchCommits (merge mM1 "a" "T" "S").2 "main").map Commit.id =
      (branchCommits (merge mM2 "b" "T" "S").2 "main").map Commit.id ∧
    (branchCommits (merge mM1 "a" "T" "S").2 "main").map Commit.message ≠
      (branchCommits (merge mM2 "b" "T" "S").2 "main").map Commit.message := by
  constructor
  · decide
  · decide
